import Mathlib

/-!
# kube-watcher: subscriber registry, broadcast and connection handler

A shallow embedding of `src/kube-watcher/main.go`.

* The package-level `clients` map and `clientsMux` mutex become fields of `State`.
* Every call the program makes to a collaborator (the mutex, a websocket connection,
  the logger) and every mutation of the map is appended to `State.trace`, so that the
  order of the actions of a run can be inspected afterwards.
* What the program cannot decide itself (whether a write fails, in which order `range`
  walks the map, how `json.Marshal` lays out bytes) is supplied by an `Env`, as a function
  of the moment at which it is asked.
* Go functions are values of `Go α`: they take a state and either return, panic, or
  never return.
* Every access of the program to the map is bracketed by `clientsMux.Lock()` and
  `clientsMux.Unlock()`.  The goroutines therefore act on the map one critical section
  after the other, and a run of the program is a sequence of such sections (`Act`), each
  started with the mutex free.  `handleWebSocket` has two of them with its blocking reads
  in between; what the other goroutines do meanwhile is part of its input.  What another
  goroutine does between the return of the failed read and the deferred function, or
  between the final `Unlock` and `conn.Close()`, touches the same state in the same order
  as if it had happened during the read before, and is accounted there.
-/

namespace KubeWatcher

/-! ## Data model -/

/-- Identity of a `*websocket.Conn` (pointer identity in the source). -/
abbrev Conn := Nat

/-- A `[]byte` message handed to `WriteMessage`. -/
abbrev Msg := String

/-- One observable action of the program. -/
inductive Event where
  /-- The call `clientsMux.Lock()` returned. -/
  | lock
  /-- The call `clientsMux.Unlock()`. -/
  | unlock
  /-- The statement `clients[c] = true`. -/
  | mapInsert (c : Conn)
  /-- The statement `delete(clients, c)`. -/
  | mapDelete (c : Conn)
  /-- The call `c.WriteMessage(websocket.TextMessage, msg)`; `err` tells whether it returned an error. -/
  | write (c : Conn) (msg : Msg) (err : Bool)
  /-- The call `c.Close()`. -/
  | close (c : Conn)
  /-- The call `c.ReadMessage()` returned; `err` tells whether it returned an error. -/
  | read (c : Conn) (err : Bool)
  /-- The call `log.Println(...)`. -/
  | log (line : String)
  deriving DecidableEq, Repr

/-- The global state of the program: the keys of the `clients` map (every stored value is
`true` and no code path reads a value, so the key set is the whole content of the map),
whether `clientsMux` is held, and the actions performed so far. -/
structure State where
  clients : List Conn
  locked : Bool
  trace : List Event
  deriving DecidableEq, Repr

/-- The state at program start: `clients = make(map[*websocket.Conn]bool)`, mutex free. -/
def State.init : State := { clients := [], locked := false, trace := [] }

/-- Well-formed states: the key list of a map has no repeated key. -/
def State.WF (s : State) : Prop := s.clients.Nodup

/-- What the surroundings decide.  Time is the number of actions performed so far. -/
structure Env where
  /-- Whether the `WriteMessage` attempted at time `t` on connection `c` returns an error. -/
  writeErr : Nat → Conn → Bool
  /-- The order in which a `range` over the map started at time `t` produces the keys. -/
  rangeOrder : Nat → List Conn → List Conn
  /-- A `range` produces every key of the map once. -/
  rangeOrder_perm : ∀ t keys, (rangeOrder t keys).Perm keys
  /-- The bytes `json.Marshal` produces for a `map[string]string`. -/
  marshal : List (String × String) → Msg

/-- The values a goroutine of this program can panic with. -/
inductive PanicValue where
  /-- The assertion `obj.(*v1.Pod)` on an interface value of another dynamic type. -/
  | typeAssertion
  /-- A field access through a nil `*v1.Pod`. -/
  | nilDereference
  /-- An `Unlock` of a mutex that is not locked. -/
  | unlockOfUnlocked
  deriving DecidableEq, Repr

/-- How a call ends: it returns a value, it panics, or it never returns (it is parked on
a mutex or on a read that never completes).  Each carries the state reached. -/
inductive Res (α : Type) where
  | ok (a : α) (s : State)
  | panic (v : PanicValue) (s : State)
  | blocked (s : State)
  deriving DecidableEq, Repr

/-- A Go computation over the global state. -/
def Go (α : Type) : Type := State → Res α

/-- Sequencing: the second computation runs only if the first returned. -/
def Go.bind {α β : Type} (m : Go α) (f : α → Go β) : Go β := fun s =>
  match m s with
  | .ok a s1 => f a s1
  | .panic v s1 => .panic v s1
  | .blocked s1 => .blocked s1

instance : Monad Go where
  pure a := fun s => .ok a s
  bind := Go.bind

/-- Go `defer`: `cleanup` runs when `body` returns and also when it panics; it does not
run while `body` is still blocked. -/
def withDefer {α : Type} (cleanup : Go Unit) (body : Go α) : Go α := fun s =>
  match body s with
  | .ok a s1 =>
    match cleanup s1 with
    | .ok _ s2 => .ok a s2
    | .panic v s2 => .panic v s2
    | .blocked s2 => .blocked s2
  | .panic v s1 =>
    match cleanup s1 with
    | .ok _ s2 => .panic v s2
    | .panic w s2 => .panic w s2
    | .blocked s2 => .blocked s2
  | .blocked s1 => .blocked s1

/-! ## Collaborators -/

/-- Append one action to the trace. -/
def emit (e : Event) : Go Unit := fun s =>
  .ok () { s with trace := s.trace ++ [e] }

/-- The call `clientsMux.Lock()`: blocks while the mutex is held. -/
def Lock : Go Unit := fun s =>
  if s.locked then .blocked s
  else .ok () { s with locked := true, trace := s.trace ++ [Event.lock] }

/-- The call `clientsMux.Unlock()`: a fault when the mutex is not held. -/
def Unlock : Go Unit := fun s =>
  if s.locked then .ok () { s with locked := false, trace := s.trace ++ [Event.unlock] }
  else .panic .unlockOfUnlocked s

/-- The call `client.WriteMessage(websocket.TextMessage, msg)`; returns whether `err != nil`. -/
def WriteMessage (env : Env) (client : Conn) (msg : Msg) : Go Bool := fun s =>
  let err := env.writeErr s.trace.length client
  .ok err { s with trace := s.trace ++ [Event.write client msg err] }

/-- The call `conn.Close()`. -/
def Close (conn : Conn) : Go Unit := emit (Event.close conn)

/-- The call `log.Println(...)`. -/
def Println (line : String) : Go Unit := emit (Event.log line)

/-! ## The `clients` map -/

/-- Key list after `m[k] = true`: an existing key keeps its single entry. -/
def keysInsert (keys : List Conn) (k : Conn) : List Conn :=
  if k ∈ keys then keys else k :: keys

/-- Key list after `delete(m, k)`: a no-op when the key is absent. -/
def keysDelete (keys : List Conn) (k : Conn) : List Conn :=
  keys.filter (fun x => x != k)

/-- The statement `clients[conn] = true`. -/
def mapInsert (conn : Conn) : Go Unit := fun s =>
  .ok () { s with clients := keysInsert s.clients conn, trace := s.trace ++ [Event.mapInsert conn] }

/-- The statement `delete(clients, conn)`. -/
def mapDelete (conn : Conn) : Go Unit := fun s =>
  .ok () { s with clients := keysDelete s.clients conn, trace := s.trace ++ [Event.mapDelete conn] }

/-- The iterations of `for client := range clients` over the keys still to be produced.
A key that was removed from the map before being reached is not produced. -/
def rangeLoop (body : Conn → Go Unit) : List Conn → Go Unit
  | [] => pure ()
  | k :: rest => fun s =>
    if k ∈ s.clients then
      match body k s with
      | .ok _ s1 => rangeLoop body rest s1
      | .panic v s1 => .panic v s1
      | .blocked s1 => .blocked s1
    else rangeLoop body rest s

/-- The loop `for client := range clients { body }`. -/
def rangeClients (env : Env) (body : Conn → Go Unit) : Go Unit := fun s =>
  rangeLoop body (env.rangeOrder s.trace.length s.clients) s

/-! ## `broadcast` (main.go:28-37) -/

/-- The body of the loop in `broadcast`, main.go:32-35. -/
def broadcastBody (env : Env) (msg : Msg) (client : Conn) : Go Unit := do
  let err ← WriteMessage env client msg
  if err then
    Close client
    mapDelete client

/-- The function `broadcast(msg []byte)`. -/
def broadcast (env : Env) (msg : Msg) : Go Unit := do
  Lock
  withDefer Unlock (rangeClients env (broadcastBody env msg))

/-! ## `handleWebSocket` (main.go:77-99) -/

/-- The registration block of `handleWebSocket`, main.go:83-85. -/
def registerConn (conn : Conn) : Go Unit := do
  Lock
  mapInsert conn
  Unlock

/-- The deferred function of `handleWebSocket`, main.go:87-92. -/
def deferredCleanup (conn : Conn) : Go Unit := do
  Lock
  mapDelete conn
  Unlock
  Close conn

/-- What another goroutine does to the shared state in one go: a `broadcast` call made by
an informer callback, or the registration block or the deferred function of another
`handleWebSocket` invocation.  Each of them takes the mutex for its whole access to the
map, so they act on the map one after the other. -/
inductive Act where
  | bcast (msg : Msg)
  | join (conn : Conn)
  | leave (conn : Conn)
  deriving DecidableEq, Repr

/-- Run one action of another goroutine. -/
def Act.run (env : Env) : Act → Go Unit
  | .bcast msg => broadcast env msg
  | .join conn => registerConn conn
  | .leave conn => deferredCleanup conn

/-- Run the actions of other goroutines in the order in which they get the mutex. -/
def runActs (env : Env) : List Act → Go Unit
  | [] => pure ()
  | a :: rest => do
    a.run env
    runActs env rest

/-- What `conn.ReadMessage()` returns: a message (type and payload) or an error. -/
inductive ReadResult where
  | message (messageType : Int) (p : Msg)
  | err
  deriving DecidableEq, Repr

/-- One call of `conn.ReadMessage()`: what the other goroutines do while the handler
waits in the call, and what the call returns. -/
structure ReadStep where
  during : List Act
  result : ReadResult
  deriving DecidableEq, Repr

/-- The loop `for { if _, _, err := conn.ReadMessage(); err != nil { break } }`,
main.go:94-98.  When the supplied reads are used up the next `ReadMessage` never returns. -/
def readLoop (env : Env) (conn : Conn) : List ReadStep → Go Unit
  | [] => fun s => .blocked s
  | step :: rest => do
    runActs env step.during
    match step.result with
    | .err =>
      emit (Event.read conn true)
    | .message _ _ =>
      emit (Event.read conn false)
      readLoop env conn rest

/-- The function `handleWebSocket(c *gin.Context)`.  `upgrade` is what
`upgrader.Upgrade(c.Writer, c.Request, nil)` returns: the new connection, or an error. -/
def handleWebSocket (env : Env) (upgrade : Except String Conn) (reads : List ReadStep) : Go Unit :=
  match upgrade with
  | .error e => do
    Println ("WebSocket Upgrade error: " ++ e)
  | .ok conn => do
    registerConn conn
    withDefer (deferredCleanup conn) (readLoop env conn reads)

/-! ## The informer callbacks of `watchK8sEvents` (main.go:54-70) -/

/-- The two fields of `v1.Pod` the callbacks read: `pod.Name` and `pod.Namespace`. -/
structure Pod where
  Name : String
  Namespace : String
  deriving DecidableEq, Repr

/-- An `interface{}` value handed to a callback by the informer: a pointer to a pod, a nil
`*v1.Pod`, or a value of another dynamic type (named by `typeName`; a nil interface and
`cache.DeletedFinalStateUnknown` are of this kind). -/
inductive Obj where
  | pod (p : Pod)
  | nilPod
  | other (typeName : String)
  deriving DecidableEq, Repr

/-- Whether the object is a pod the callbacks can read. -/
def Obj.isPod : Obj → Bool
  | .pod _ => true
  | _ => false

/-- The expression `obj.(*v1.Pod)` followed by the field reads `pod.Name`, `pod.Namespace`:
the single-value type assertion panics on another dynamic type, the field read panics on
a nil pointer. -/
def assertPod : Obj → Go Pod
  | .pod p => pure p
  | .nilPod => fun s => .panic .nilDereference s
  | .other _ => fun s => .panic .typeAssertion s

/-- The map literal `map[string]string{"event": kind, "pod": pod.Name, "namespace":
pod.Namespace}` as its list of key/value entries. -/
def eventMap (kind : String) (pod : Pod) : List (String × String) :=
  [("event", kind), ("pod", pod.Name), ("namespace", pod.Namespace)]

/-- The callback `AddFunc`, main.go:55-59. -/
def AddFunc (env : Env) (obj : Obj) : Go Unit := do
  let pod ← assertPod obj
  let msg := env.marshal (eventMap "ADDED" pod)
  broadcast env msg

/-- The callback `UpdateFunc`, main.go:60-64. -/
def UpdateFunc (env : Env) (_oldObj newObj : Obj) : Go Unit := do
  let pod ← assertPod newObj
  let msg := env.marshal (eventMap "UPDATED" pod)
  broadcast env msg

/-- The callback `DeleteFunc`, main.go:65-69. -/
def DeleteFunc (env : Env) (obj : Obj) : Go Unit := do
  let pod ← assertPod obj
  let msg := env.marshal (eventMap "DELETED" pod)
  broadcast env msg

/-! ## Reading a trace -/

/-- The write attempts made to connection `c` in a stretch of trace, in order: the
message written and whether the write returned an error. -/
def attempts (c : Conn) (evs : List Event) : List (Msg × Bool) :=
  evs.filterMap (fun e =>
    match e with
    | .write d m err => if d = c then some (m, err) else none
    | _ => none)

/-- Whether some write attempt to `c` in the stretch of trace returned an error. -/
def evicted (evs : List Event) (c : Conn) : Bool :=
  (attempts c evs).any (fun a => a.2)

/-- The actions the loop of `broadcast` performs: writes, closes and map deletions. -/
def Event.inLoop : Event → Bool
  | .write _ _ _ => true
  | .close _ => true
  | .mapDelete _ => true
  | _ => false

/-- Whether the action is a `WriteMessage` call. -/
def Event.isWrite : Event → Bool
  | .write _ _ _ => true
  | _ => false

/-- Pair every action of a stretch of trace with whether `clientsMux` is held at the
moment it is performed; `held` is the status of the mutex before the first action. -/
def heldWhen (held : Bool) : List Event → List (Event × Bool)
  | [] => []
  | .lock :: rest => (.lock, held) :: heldWhen true rest
  | .unlock :: rest => (.unlock, held) :: heldWhen false rest
  | e :: rest => (e, held) :: heldWhen held rest

/-- The messages of the `broadcast` calls among the actions, in order. -/
def payloads : List Act → List Msg
  | [] => []
  | .bcast m :: rest => m :: payloads rest
  | _ :: rest => payloads rest

/-- Drop what the handler discards from a read result (`_, _, err := conn.ReadMessage()`):
the message type and the payload. -/
def ReadResult.forget : ReadResult → ReadResult
  | .message _ _ => .message 0 ""
  | .err => .err

/-- Drop the discarded parts of the read result of a step. -/
def ReadStep.forget (st : ReadStep) : ReadStep :=
  { during := st.during, result := st.result.forget }

/-- Whether every `WriteMessage` of a stretch of trace comes after an `Unlock` of that
stretch, that is, after the mutex was released. -/
def writesAfterUnlock : List Event → Bool
  | [] => true
  | .unlock :: _ => true
  | e :: rest => !e.isWrite && writesAfterUnlock rest

/-- A registry operation of the connection handler: the registration block
(`clients[conn] = true` under the mutex) or the deferred function (`delete(clients, conn)`
under the mutex, then `conn.Close()`). -/
inductive RegOp where
  | register (conn : Conn)
  | deregister (conn : Conn)
  deriving DecidableEq, Repr

/-- The connection an operation is about. -/
def RegOp.conn : RegOp → Conn
  | .register c => c
  | .deregister c => c

/-- The code that performs a registry operation. -/
def RegOp.toAct : RegOp → Act
  | .register c => Act.join c
  | .deregister c => Act.leave c

/-- The most recent operation on connection `c` in a sequence of operations, if any. -/
def lastOpOn (c : Conn) : List RegOp → Option RegOp
  | [] => none
  | op :: rest =>
    match lastOpOn c rest with
    | some later => some later
    | none => if op.conn = c then some op else none

instance (s : State) : Decidable s.WF :=
  inferInstanceAs (Decidable s.clients.Nodup)

/-- The computation, run from `s`, returns after one pass through the mutex in which `msg`
was written exactly once to every connection registered in `s` and to no other
connection. -/
def Publishes (m : Go Unit) (s : State) (msg : Msg) : Prop :=
  ∃ s1 evs, m s = Res.ok () s1 ∧ s1.trace = s.trace ++ evs
    ∧ evs.count Event.lock = 1
    ∧ (∀ c, c ∈ s.clients → (attempts c evs).map Prod.fst = [msg])
    ∧ (∀ c, c ∉ s.clients → attempts c evs = [])

/-! ## Sample surroundings -/

/-- A serialisation of a string map in the style of `json.Marshal`, without escaping. -/
def sampleMarshal (kv : List (String × String)) : Msg :=
  "\x7b" ++ ",".intercalate (kv.map (fun p => "\"" ++ p.1 ++ "\":\"" ++ p.2 ++ "\"")) ++ "\x7d"

/-- Surroundings in which every write to connection `1` fails, every other write succeeds
and `range` walks the keys from the back. -/
def sampleEnv : Env :=
  { writeErr := fun _ c => c == 1
    rangeOrder := fun _ keys => keys.reverse
    rangeOrder_perm := fun _ keys => List.reverse_perm keys
    marshal := sampleMarshal }

/-- Reads of a connection that end in a failure: a message arrives, then another
goroutine broadcasts `"m"`, then the read fails. -/
def sampleReads : List ReadStep :=
  [{ during := [], result := ReadResult.message 1 "ping" },
   { during := [Act.bcast "m"], result := ReadResult.err }]

/-! ## Basic facts -/

@[simp] theorem pure_run {α : Type} (a : α) (s : State) : (pure a : Go α) s = Res.ok a s := rfl

@[simp] theorem bind_run {α β : Type} (m : Go α) (f : α → Go β) (s : State) :
    (m >>= f) s = Go.bind m f s := rfl

theorem attempts_append (c : Conn) (xs ys : List Event) :
    attempts c (xs ++ ys) = attempts c xs ++ attempts c ys := by
  simp [attempts, List.filterMap_append]

@[simp] theorem attempts_nil (c : Conn) : attempts c [] = [] := rfl

theorem attempts_write (c d : Conn) (m : Msg) (err : Bool) (evs : List Event) :
    attempts c (Event.write d m err :: evs)
      = if d = c then (m, err) :: attempts c evs else attempts c evs := by
  by_cases h : d = c <;> simp [attempts, List.filterMap_cons, h]

theorem broadcastBody_run (env : Env) (msg : Msg) (k : Conn) (s : State) :
    broadcastBody env msg k s =
      if env.writeErr s.trace.length k then
        Res.ok () { clients := keysDelete s.clients k, locked := s.locked,
                    trace := s.trace ++ [Event.write k msg true, Event.close k, Event.mapDelete k] }
      else
        Res.ok () { clients := s.clients, locked := s.locked,
                    trace := s.trace ++ [Event.write k msg false] } := by
  cases h : env.writeErr s.trace.length k <;>
    simp [broadcastBody, Go.bind, WriteMessage, Close, emit, mapDelete, h]

theorem evicted_nil (c : Conn) : evicted [] c = false := rfl

theorem evicted_write (c d : Conn) (m : Msg) (err : Bool) (evs : List Event) :
    evicted (Event.write d m err :: evs) c = ((decide (d = c) && err) || evicted evs c) := by
  by_cases h : d = c <;> simp [evicted, attempts_write, h]

theorem evicted_close (c d : Conn) (evs : List Event) :
    evicted (Event.close d :: evs) c = evicted evs c := by
  simp [evicted, attempts]

theorem evicted_mapDelete (c d : Conn) (evs : List Event) :
    evicted (Event.mapDelete d :: evs) c = evicted evs c := by
  simp [evicted, attempts]

theorem mem_keysDelete (keys : List Conn) (k c : Conn) :
    c ∈ keysDelete keys k ↔ c ∈ keys ∧ c ≠ k := by
  simp [keysDelete]

/-- The loop of `broadcast` over keys that are all still in the map: it returns, every key
is written to once, nothing else is written to, and exactly the keys whose write returned
an error are removed. -/
theorem rangeLoop_broadcastBody (env : Env) (msg : Msg) :
    ∀ (l : List Conn) (s : State), l.Nodup → (∀ c ∈ l, c ∈ s.clients) →
    ∃ evs, rangeLoop (broadcastBody env msg) l s
        = Res.ok () { clients := s.clients.filter (fun c => !evicted evs c),
                      locked := s.locked, trace := s.trace ++ evs }
      ∧ (∀ c, c ∈ l → ∃ t, attempts c evs = [(msg, env.writeErr t c)])
      ∧ (∀ c, c ∉ l → attempts c evs = [])
      ∧ (∀ e ∈ evs, e.inLoop = true)
      ∧ (evs.filter Event.isWrite).length = l.length := by
  intro l
  induction l with
  | nil =>
    intro s _ _
    refine ⟨[], ?_, ?_, ?_, ?_, rfl⟩
    · simp [rangeLoop, evicted_nil]
    · intro c hc; cases hc
    · intro c _; rfl
    · intro e he; cases he
  | cons k rest ih =>
    intro s hnd hmem
    have hk : k ∈ s.clients := hmem k (List.mem_cons_self _ _)
    have hkrest : k ∉ rest := (List.nodup_cons.mp hnd).1
    have hrest : rest.Nodup := (List.nodup_cons.mp hnd).2
    cases herr : env.writeErr s.trace.length k with
    | false =>
      obtain ⟨evs, hrun, hin, hout, hloop, hcount⟩ :=
        ih { clients := s.clients, locked := s.locked,
             trace := s.trace ++ [Event.write k msg false] } hrest
          (fun c hc => hmem c (List.mem_cons_of_mem _ hc))
      refine ⟨Event.write k msg false :: evs, ?_, ?_, ?_, ?_, by simp [Event.isWrite, hcount]⟩
      · simp only [rangeLoop, hk, if_true, broadcastBody_run, herr]
        simp only [Bool.false_eq_true, if_false, hrun]
        simp [evicted_write]
      · intro c hc
        rcases List.mem_cons.mp hc with rfl | hc
        · exact ⟨s.trace.length, by simp [attempts_write, hout _ hkrest, herr]⟩
        · have hne : k ≠ c := fun h => hkrest (h ▸ hc)
          obtain ⟨t, ht⟩ := hin c hc
          exact ⟨t, by simp [attempts_write, hne, ht]⟩
      · intro c hc
        have hne : k ≠ c := fun h => hc (h ▸ List.mem_cons_self _ _)
        simp [attempts_write, hne, hout c (fun h => hc (List.mem_cons_of_mem _ h))]
      · intro e he
        rcases List.mem_cons.mp he with rfl | he
        · rfl
        · exact hloop e he
    | true =>
      obtain ⟨evs, hrun, hin, hout, hloop, hcount⟩ :=
        ih { clients := keysDelete s.clients k, locked := s.locked,
             trace := s.trace ++ [Event.write k msg true, Event.close k, Event.mapDelete k] } hrest
          (fun c hc => (mem_keysDelete _ _ _).mpr
            ⟨hmem c (List.mem_cons_of_mem _ hc), fun h => hkrest (h ▸ hc)⟩)
      refine ⟨Event.write k msg true :: Event.close k :: Event.mapDelete k :: evs, ?_, ?_, ?_, ?_,
        by simp [Event.isWrite, hcount]⟩
      · simp only [rangeLoop, hk, if_true, broadcastBody_run, herr]
        simp only [if_true, hrun]
        simp only [evicted_write, evicted_close, evicted_mapDelete, keysDelete, List.filter_filter,
          List.append_assoc, List.cons_append, List.nil_append, Bool.and_true]
        congr 2
        apply List.filter_congr
        intro c _
        by_cases h : k = c
        · subst h; simp
        · have h2 : ¬ c = k := fun e => h e.symm
          simp [h, h2]
      · intro c hc
        rcases List.mem_cons.mp hc with rfl | hc
        · refine ⟨s.trace.length, ?_⟩
          have h0 := hout _ hkrest
          simp [attempts_write, herr]
          simpa [attempts] using h0
        · have hne : k ≠ c := fun h => hkrest (h ▸ hc)
          obtain ⟨t, ht⟩ := hin c hc
          refine ⟨t, ?_⟩
          simp [attempts_write, hne]
          simpa [attempts] using ht
      · intro c hc
        have hne : k ≠ c := fun h => hc (h ▸ List.mem_cons_self _ _)
        have h0 := hout c (fun h => hc (List.mem_cons_of_mem _ h))
        simp [attempts_write, hne]
        simpa [attempts] using h0
      · intro e he
        simp only [List.mem_cons] at he
        rcases he with rfl | rfl | rfl | he
        · rfl
        · rfl
        · rfl
        · exact hloop e he

/-- One call of `broadcast` from a state where the mutex is free: it returns, the mutex is
free again, and between the lock and the unlock stands exactly the loop. -/
theorem broadcast_run (env : Env) (msg : Msg) (s : State) (hl : s.locked = false) (hwf : s.WF) :
    ∃ evs, broadcast env msg s
        = Res.ok () { clients := s.clients.filter (fun c => !evicted evs c),
                      locked := false,
                      trace := s.trace ++ Event.lock :: (evs ++ [Event.unlock]) }
      ∧ (∀ c, c ∈ s.clients → ∃ t, attempts c evs = [(msg, env.writeErr t c)])
      ∧ (∀ c, c ∉ s.clients → attempts c evs = [])
      ∧ (∀ e ∈ evs, e.inLoop = true)
      ∧ (evs.filter Event.isWrite).length = s.clients.length := by
  have hperm := env.rangeOrder_perm (s.trace ++ [Event.lock]).length s.clients
  obtain ⟨evs, hrun, hin, hout, hloop, hcount⟩ :=
    rangeLoop_broadcastBody env msg (env.rangeOrder (s.trace ++ [Event.lock]).length s.clients)
      { clients := s.clients, locked := true, trace := s.trace ++ [Event.lock] }
      (hperm.nodup_iff.mpr hwf) (fun c hc => hperm.mem_iff.mp hc)
  refine ⟨evs, ?_, fun c hc => hin c (hperm.mem_iff.mpr hc),
    fun c hc => hout c (fun h => hc (hperm.mem_iff.mp h)), hloop, by rw [hcount, hperm.length_eq]⟩
  simp only [broadcast, bind_run, Go.bind, Lock, hl, Bool.false_eq_true, if_false,
    withDefer, rangeClients, hrun, Unlock, if_true]
  simp

theorem registerConn_run (conn : Conn) (s : State) (hl : s.locked = false) :
    registerConn conn s
      = Res.ok () { clients := keysInsert s.clients conn, locked := false,
                    trace := s.trace ++ [Event.lock, Event.mapInsert conn, Event.unlock] } := by
  simp [registerConn, Go.bind, Lock, hl, mapInsert, Unlock]

theorem deferredCleanup_run (conn : Conn) (s : State) (hl : s.locked = false) :
    deferredCleanup conn s
      = Res.ok () { clients := keysDelete s.clients conn, locked := false,
                    trace := s.trace ++ [Event.lock, Event.mapDelete conn, Event.unlock,
                      Event.close conn] } := by
  simp [deferredCleanup, Go.bind, Lock, hl, mapDelete, Unlock, Close, emit]

theorem mem_keysInsert (keys : List Conn) (k c : Conn) :
    c ∈ keysInsert keys k ↔ c ∈ keys ∨ c = k := by
  unfold keysInsert
  by_cases h : k ∈ keys
  · simp only [h, if_true]
    constructor
    · exact Or.inl
    · rintro (h1 | rfl)
      · exact h1
      · exact h
  · simp only [h, if_false, List.mem_cons]
    exact or_comm

theorem nodup_keysInsert (keys : List Conn) (k : Conn) (h : keys.Nodup) :
    (keysInsert keys k).Nodup := by
  unfold keysInsert
  by_cases hk : k ∈ keys
  · simpa [hk] using h
  · simpa [hk] using h

theorem nodup_keysDelete (keys : List Conn) (k : Conn) (h : keys.Nodup) :
    (keysDelete keys k).Nodup :=
  h.filter _

/-- Any action of another goroutine, started with the mutex free, returns with the mutex
free and a well-formed map. -/
theorem act_run (env : Env) (a : Act) (s : State) (hl : s.locked = false) (hwf : s.WF) :
    ∃ s1 evs, a.run env s = Res.ok () s1 ∧ s1.locked = false ∧ s1.WF
      ∧ s1.trace = s.trace ++ evs
      ∧ (∀ c, c ∉ s.clients → attempts c evs = [])
      ∧ (∀ c, c ∉ s.clients → a ≠ Act.join c → c ∉ s1.clients)
      ∧ (∀ c, c ∈ s.clients → (∀ t, env.writeErr t c = false) → a ≠ Act.leave c →
          c ∈ s1.clients ∧ attempts c evs = (payloads [a]).map (fun m => (m, false))) := by
  cases a with
  | bcast msg =>
    obtain ⟨evs, hrun, hin, hout, _, _⟩ := broadcast_run env msg s hl hwf
    refine ⟨_, Event.lock :: (evs ++ [Event.unlock]), hrun, rfl, ?_, rfl, ?_, ?_, ?_⟩
    · exact hwf.filter _
    · intro c hc
      have := hout c hc
      simpa [attempts, List.filterMap_append] using this
    · intro c hc _ hmem
      exact hc (List.mem_filter.mp hmem).1
    · intro c hc herr _
      obtain ⟨t, ht⟩ := hin c hc
      rw [herr t] at ht
      refine ⟨?_, ?_⟩
      · simp [List.mem_filter, hc, evicted, ht]
      · have : attempts c (Event.lock :: (evs ++ [Event.unlock])) = attempts c evs := by
          simp [attempts, List.filterMap_append]
        rw [this, ht]; rfl
  | join d =>
    refine ⟨_, _, registerConn_run d s hl, rfl, nodup_keysInsert _ _ hwf, rfl, ?_, ?_, ?_⟩
    · intro c _; rfl
    · intro c hc hne hmem
      rcases (mem_keysInsert _ _ _).mp hmem with h | h
      · exact hc h
      · exact hne (by rw [h])
    · intro c hc _ _
      exact ⟨(mem_keysInsert _ _ _).mpr (Or.inl hc), rfl⟩
  | leave d =>
    refine ⟨_, _, deferredCleanup_run d s hl, rfl, nodup_keysDelete _ _ hwf, rfl, ?_, ?_, ?_⟩
    · intro c _; rfl
    · intro c hc _ hmem
      exact hc ((mem_keysDelete _ _ _).mp hmem).1
    · intro c hc _ hne
      refine ⟨(mem_keysDelete _ _ _).mpr ⟨hc, fun h => hne (by rw [h])⟩, rfl⟩

theorem payloads_cons (a : Act) (acts : List Act) :
    payloads (a :: acts) = payloads [a] ++ payloads acts := by
  cases a <;> rfl

theorem runActs_cons (env : Env) (a : Act) (acts : List Act) (s : State) :
    runActs env (a :: acts) s = Go.bind (a.run env) (fun _ => runActs env acts) s := rfl

/-- Any sequence of actions of other goroutines, started with the mutex free, runs to its
end.  A connection that is absent and is not registered by any action stays absent and is
never written to; a connection that is present, is not deregistered by any action and
whose writes succeed stays present and is written every broadcast message, in order. -/
theorem runActs_run (env : Env) :
    ∀ (acts : List Act) (s : State), s.locked = false → s.WF →
    ∃ s1 evs, runActs env acts s = Res.ok () s1 ∧ s1.locked = false ∧ s1.WF
      ∧ s1.trace = s.trace ++ evs
      ∧ (∀ c, c ∉ s.clients → Act.join c ∉ acts → c ∉ s1.clients ∧ attempts c evs = [])
      ∧ (∀ c, c ∈ s.clients → (∀ t, env.writeErr t c = false) → Act.leave c ∉ acts →
          c ∈ s1.clients ∧ attempts c evs = (payloads acts).map (fun m => (m, false))) := by
  intro acts
  induction acts with
  | nil =>
    intro s hl hwf
    exact ⟨s, [], rfl, hl, hwf, by simp, fun c hc _ => ⟨hc, rfl⟩, fun c hc _ _ => ⟨hc, rfl⟩⟩
  | cons a rest ih =>
    intro s hl hwf
    obtain ⟨s1, evs1, hrun1, hl1, hwf1, htr1, hout1, habs1, hpres1⟩ := act_run env a s hl hwf
    obtain ⟨s2, evs2, hrun2, hl2, hwf2, htr2, habs2, hpres2⟩ := ih s1 hl1 hwf1
    refine ⟨s2, evs1 ++ evs2, ?_, hl2, hwf2, ?_, ?_, ?_⟩
    · simp [runActs_cons, Go.bind, hrun1, hrun2]
    · rw [htr2, htr1, List.append_assoc]
    · intro c hc hj
      have hne : a ≠ Act.join c := fun h => hj (h ▸ List.mem_cons_self _ _)
      have hc1 : c ∉ s1.clients := habs1 c hc hne
      obtain ⟨h2, h3⟩ := habs2 c hc1 (fun h => hj (List.mem_cons_of_mem _ h))
      exact ⟨h2, by rw [attempts_append, hout1 c hc, h3]; rfl⟩
    · intro c hc herr hlv
      have hne : a ≠ Act.leave c := fun h => hlv (h ▸ List.mem_cons_self _ _)
      obtain ⟨hc1, ha1⟩ := hpres1 c hc herr hne
      obtain ⟨hc2, ha2⟩ := hpres2 c hc1 herr (fun h => hlv (List.mem_cons_of_mem _ h))
      exact ⟨hc2, by rw [attempts_append, ha1, ha2, payloads_cons a rest, List.map_append]⟩

theorem payloads_map_bcast (msgs : List Msg) : payloads (msgs.map Act.bcast) = msgs := by
  induction msgs with
  | nil => rfl
  | cons m rest ih => simp [payloads, ih]

theorem readLoop_cons (env : Env) (conn : Conn) (step : ReadStep) (rest : List ReadStep)
    (s : State) :
    readLoop env conn (step :: rest) s
      = Go.bind (runActs env step.during) (fun _ =>
          match step.result with
          | .err => emit (Event.read conn true)
          | .message _ _ =>
            Go.bind (emit (Event.read conn false)) (fun _ => readLoop env conn rest)) s := by
  cases step with
  | mk during result => cases result <;> rfl

/-- While every read returns a message the handler stays in its loop, waiting for the next
read; the connection is still registered unless another goroutine removed it. -/
theorem readLoop_waiting (env : Env) (conn : Conn) :
    ∀ (reads : List ReadStep) (s : State), s.locked = false → s.WF →
    (∀ st ∈ reads, st.result ≠ ReadResult.err) →
    ∃ s1, readLoop env conn reads s = Res.blocked s1 ∧ s1.locked = false ∧ s1.WF
      ∧ (conn ∈ s.clients → (∀ t, env.writeErr t conn = false) →
          (∀ st ∈ reads, Act.leave conn ∉ st.during) → conn ∈ s1.clients) := by
  intro reads
  induction reads with
  | nil =>
    intro s hl hwf _
    exact ⟨s, rfl, hl, hwf, fun h _ _ => h⟩
  | cons step rest ih =>
    intro s hl hwf hmsg
    obtain ⟨s1, evs1, hrun1, hl1, hwf1, _, _, hpres1⟩ := runActs_run env step.during s hl hwf
    have hstep : step.result ≠ ReadResult.err := hmsg step (List.mem_cons_self _ _)
    obtain ⟨s2, hrun2, hl2, hwf2, hpres2⟩ :=
      ih { clients := s1.clients, locked := s1.locked, trace := s1.trace ++ [Event.read conn false] }
        hl1 hwf1 (fun st hst => hmsg st (List.mem_cons_of_mem _ hst))
    refine ⟨s2, ?_, hl2, hwf2, ?_⟩
    · rw [readLoop_cons]
      cases hres : step.result with
      | err => exact absurd hres hstep
      | message mt p => simp [Go.bind, hrun1, emit, hrun2]
    · intro hc herr hlv
      exact hpres2 (hpres1 conn hc herr (hlv step (List.mem_cons_self _ _))).1 herr
        (fun st hst => hlv st (List.mem_cons_of_mem _ hst))

/-- Once a read returns an error the loop is left, whatever the other goroutines did. -/
theorem readLoop_returns (env : Env) (conn : Conn) :
    ∀ (reads : List ReadStep) (s : State), s.locked = false → s.WF →
    (∃ st ∈ reads, st.result = ReadResult.err) →
    ∃ s1, readLoop env conn reads s = Res.ok () s1 ∧ s1.locked = false ∧ s1.WF := by
  intro reads
  induction reads with
  | nil =>
    intro s _ _ h
    obtain ⟨st, hst, _⟩ := h
    cases hst
  | cons step rest ih =>
    intro s hl hwf h
    obtain ⟨s1, evs1, hrun1, hl1, hwf1, _, _, _⟩ := runActs_run env step.during s hl hwf
    rw [readLoop_cons]
    cases hres : step.result with
    | err =>
      exact ⟨{ clients := s1.clients, locked := s1.locked,
               trace := s1.trace ++ [Event.read conn true] },
        by simp [Go.bind, hrun1, emit], hl1, hwf1⟩
    | message mt p =>
      have h2 : ∃ st ∈ rest, st.result = ReadResult.err := by
        obtain ⟨st, hst, herr⟩ := h
        rcases List.mem_cons.mp hst with rfl | hst
        · rw [hres] at herr; cases herr
        · exact ⟨st, hst, herr⟩
      obtain ⟨s2, hrun2, hl2, hwf2⟩ :=
        ih { clients := s1.clients, locked := s1.locked, trace := s1.trace ++ [Event.read conn false] }
          hl1 hwf1 h2
      exact ⟨s2, by simp [Go.bind, hrun1, emit, hrun2], hl2, hwf2⟩

/-- The payload and the type of a message that was read do not influence the loop. -/
theorem readLoop_forget (env : Env) (conn : Conn) :
    ∀ (reads : List ReadStep) (s : State),
    readLoop env conn (reads.map ReadStep.forget) s = readLoop env conn reads s := by
  intro reads
  induction reads with
  | nil => intro s; rfl
  | cons step rest ih =>
    intro s
    rw [List.map_cons, readLoop_cons, readLoop_cons]
    cases step with
    | mk during result =>
      cases result with
      | err => rfl
      | message mt p =>
        simp only [ReadStep.forget, ReadResult.forget, Go.bind]
        cases runActs env during s with
        | ok a s1 => simp only [emit]; exact ih _
        | panic v s1 => rfl
        | blocked s1 => rfl

theorem mem_of_attempts (c : Conn) (m : Msg) (err : Bool) (evs : List Event)
    (h : (m, err) ∈ attempts c evs) : Event.write c m err ∈ evs := by
  unfold attempts at h
  obtain ⟨e, he, hf⟩ := List.mem_filterMap.mp h
  cases e with
  | write d m2 err2 =>
    by_cases hd : d = c
    · simp [hd] at hf
      obtain ⟨h1, h2⟩ := hf
      subst hd; subst h1; subst h2
      exact he
    · simp [hd] at hf
  | lock => simp at hf
  | unlock => simp at hf
  | mapInsert d => simp at hf
  | mapDelete d => simp at hf
  | close d => simp at hf
  | read d e => simp at hf
  | log l => simp at hf

theorem heldWhen_inLoop (held : Bool) :
    ∀ (evs tail : List Event), (∀ e ∈ evs, e.inLoop = true) →
    heldWhen held (evs ++ tail) = evs.map (fun e => (e, held)) ++ heldWhen held tail := by
  intro evs
  induction evs with
  | nil => intro tail _; rfl
  | cons e rest ih =>
    intro tail h
    have he : e.inLoop = true := h e (List.mem_cons_self _ _)
    have hrest := ih tail (fun x hx => h x (List.mem_cons_of_mem _ hx))
    cases e with
    | lock => cases he
    | unlock => cases he
    | mapInsert d => cases he
    | read d e => cases he
    | log l => cases he
    | write d m err => simp [heldWhen, hrest]
    | close d => simp [heldWhen, hrest]
    | mapDelete d => simp [heldWhen, hrest]

/-- In the actions of a `broadcast` call the mutex is held at every write. -/
theorem heldWhen_broadcast (inner : List Event) (h : ∀ e ∈ inner, e.inLoop = true) :
    ∀ p ∈ heldWhen false (Event.lock :: (inner ++ [Event.unlock])),
      p.1.isWrite = true → p.2 = true := by
  intro p hp hw
  have : heldWhen false (Event.lock :: (inner ++ [Event.unlock]))
      = (Event.lock, false) :: (inner.map (fun e => (e, true)) ++ [(Event.unlock, true)]) := by
    simp [heldWhen, heldWhen_inLoop true inner [Event.unlock] h]
  rw [this] at hp
  rcases List.mem_cons.mp hp with rfl | hp
  · cases hw
  · rcases List.mem_append.mp hp with hp | hp
    · obtain ⟨e, _, rfl⟩ := List.mem_map.mp hp
      rfl
    · simp at hp
      subst hp
      rfl

theorem lastOpOn_conn (c : Conn) :
    ∀ (ops : List RegOp) (op : RegOp), lastOpOn c ops = some op → op.conn = c := by
  intro ops
  induction ops with
  | nil => intro op h; cases h
  | cons o rest ih =>
    intro op h
    unfold lastOpOn at h
    cases hr : lastOpOn c rest with
    | some later =>
      rw [hr] at h
      simp at h
      subst h
      exact ih later hr
    | none =>
      rw [hr] at h
      by_cases ho : o.conn = c
      · simp [ho] at h
        subst h
        exact ho
      · simp [ho] at h

/-- A sequence of registrations and deregistrations: afterwards a connection is in the map
exactly if the most recent operation on it is a registration, or, with no operation on it,
if it was in the map before. -/
theorem runActs_regOps (env : Env) :
    ∀ (ops : List RegOp) (s : State), s.locked = false → s.WF →
    ∃ s1, runActs env (ops.map RegOp.toAct) s = Res.ok () s1 ∧ s1.locked = false ∧ s1.WF
      ∧ ∀ c, c ∈ s1.clients ↔
          (lastOpOn c ops = some (RegOp.register c) ∨ (lastOpOn c ops = none ∧ c ∈ s.clients)) := by
  intro ops
  induction ops with
  | nil =>
    intro s hl hwf
    exact ⟨s, rfl, hl, hwf, fun c => by simp [lastOpOn]⟩
  | cons op rest ih =>
    intro s hl hwf
    cases op with
    | register d =>
      obtain ⟨s1, hrun, hl1, hwf1, hmem⟩ :=
        ih { clients := keysInsert s.clients d, locked := false,
             trace := s.trace ++ [Event.lock, Event.mapInsert d, Event.unlock] }
          rfl (nodup_keysInsert _ _ hwf)
      refine ⟨s1, ?_, hl1, hwf1, ?_⟩
      · simp [runActs_cons, RegOp.toAct, Act.run, Go.bind, registerConn_run d s hl, hrun]
      · intro c
        rw [hmem c]
        cases hr : lastOpOn c rest with
        | some later => simp [lastOpOn, hr]
        | none =>
          by_cases hd : d = c
          · subst hd; simp [lastOpOn, hr, RegOp.conn, mem_keysInsert]
          · have hd2 : ¬ c = d := fun h => hd h.symm
            simp [lastOpOn, hr, RegOp.conn, mem_keysInsert, hd, hd2]
    | deregister d =>
      obtain ⟨s1, hrun, hl1, hwf1, hmem⟩ :=
        ih { clients := keysDelete s.clients d, locked := false,
             trace := s.trace ++ [Event.lock, Event.mapDelete d, Event.unlock, Event.close d] }
          rfl (nodup_keysDelete _ _ hwf)
      refine ⟨s1, ?_, hl1, hwf1, ?_⟩
      · simp [runActs_cons, RegOp.toAct, Act.run, Go.bind, deferredCleanup_run d s hl, hrun]
      · intro c
        rw [hmem c]
        cases hr : lastOpOn c rest with
        | some later => simp [lastOpOn, hr]
        | none =>
          by_cases hd : d = c
          · subst hd; simp [lastOpOn, hr, RegOp.conn, mem_keysDelete]
          · have hd2 : ¬ c = d := fun h => hd h.symm
            simp [lastOpOn, hr, RegOp.conn, mem_keysDelete, hd, hd2]

theorem keysDelete_absent (keys : List Conn) (k : Conn) (h : k ∉ keys) :
    keysDelete keys k = keys := by
  unfold keysDelete
  apply List.filter_eq_self.mpr
  intro a ha
  have : a ≠ k := fun e => h (e ▸ ha)
  simpa using this

theorem keysInsert_present (keys : List Conn) (k : Conn) (h : k ∈ keys) :
    keysInsert keys k = keys := by
  simp [keysInsert, h]

theorem handleWebSocket_ok (env : Env) (conn : Conn) (reads : List ReadStep) (s : State) :
    handleWebSocket env (Except.ok conn) reads s
      = Go.bind (registerConn conn)
          (fun _ => withDefer (deferredCleanup conn) (readLoop env conn reads)) s := rfl

/-- A handler whose reads have all returned messages is waiting in `ReadMessage`. -/
theorem handleWebSocket_waiting (env : Env) (conn : Conn) (reads : List ReadStep) (s : State)
    (hl : s.locked = false) (hwf : s.WF) (hmsg : ∀ st ∈ reads, st.result ≠ ReadResult.err) :
    ∃ s1, handleWebSocket env (Except.ok conn) reads s = Res.blocked s1 ∧ s1.locked = false
      ∧ s1.WF
      ∧ ((∀ t, env.writeErr t conn = false) → (∀ st ∈ reads, Act.leave conn ∉ st.during) →
          conn ∈ s1.clients) := by
  obtain ⟨s1, hrun, hl1, hwf1, hpres⟩ :=
    readLoop_waiting env conn reads
      { clients := keysInsert s.clients conn, locked := false,
        trace := s.trace ++ [Event.lock, Event.mapInsert conn, Event.unlock] }
      rfl (nodup_keysInsert _ _ hwf) hmsg
  refine ⟨s1, ?_, hl1, hwf1, fun herr hlv =>
    hpres ((mem_keysInsert _ _ _).mpr (Or.inr rfl)) herr hlv⟩
  simp [handleWebSocket_ok, Go.bind, registerConn_run conn s hl, withDefer, hrun]

/-- A handler one of whose reads returns an error returns, after it removed the connection
from the map and closed it. -/
theorem handleWebSocket_returns (env : Env) (conn : Conn) (reads : List ReadStep) (s : State)
    (hl : s.locked = false) (hwf : s.WF) (herr : ∃ st ∈ reads, st.result = ReadResult.err) :
    ∃ s1 before, handleWebSocket env (Except.ok conn) reads s = Res.ok () s1
      ∧ s1.locked = false ∧ s1.WF ∧ conn ∉ s1.clients
      ∧ s1.trace = before ++ [Event.lock, Event.mapDelete conn, Event.unlock, Event.close conn] := by
  obtain ⟨s1, hrun, hl1, hwf1⟩ :=
    readLoop_returns env conn reads
      { clients := keysInsert s.clients conn, locked := false,
        trace := s.trace ++ [Event.lock, Event.mapInsert conn, Event.unlock] }
      rfl (nodup_keysInsert _ _ hwf) herr
  refine ⟨{ clients := keysDelete s1.clients conn, locked := false,
            trace := s1.trace ++ [Event.lock, Event.mapDelete conn, Event.unlock,
              Event.close conn] }, s1.trace, ?_, rfl, nodup_keysDelete _ _ hwf1, ?_, rfl⟩
  · simp [handleWebSocket_ok, Go.bind, registerConn_run conn s hl, withDefer, hrun,
      deferredCleanup_run conn s1 hl1]
  · intro h
    exact ((mem_keysDelete _ _ _).mp h).2 rfl

theorem attempts_frame (c : Conn) (inner : List Event) :
    attempts c (Event.lock :: (inner ++ [Event.unlock])) = attempts c inner := by
  simp [attempts, List.filterMap_append]

theorem isWrite_frame (inner : List Event) :
    (Event.lock :: (inner ++ [Event.unlock])).filter Event.isWrite = inner.filter Event.isWrite := by
  simp [List.filter_cons, List.filter_append, Event.isWrite]

theorem count_lock_frame (inner : List Event) (h : ∀ e ∈ inner, e.inLoop = true) :
    (Event.lock :: (inner ++ [Event.unlock])).count Event.lock = 1 := by
  have h0 : inner.count Event.lock = 0 := by
    apply List.count_eq_zero.mpr
    intro hmem
    have := h _ hmem
    cases this
  simp [List.count_cons, List.count_append, h0]

theorem writesAfterUnlock_inLoop :
    ∀ (inner tail : List Event), (∀ e ∈ inner, e.inLoop = true) →
    (∃ e ∈ inner, e.isWrite = true) → writesAfterUnlock (inner ++ tail) = false := by
  intro inner
  induction inner with
  | nil =>
    intro tail _ h
    obtain ⟨e, he, _⟩ := h
    cases he
  | cons e rest ih =>
    intro tail hloop hw
    have he : e.inLoop = true := hloop e (List.mem_cons_self _ _)
    cases e with
    | lock => cases he
    | unlock => cases he
    | mapInsert d => cases he
    | read d e => cases he
    | log l => cases he
    | write d m err => simp [writesAfterUnlock, Event.isWrite]
    | close d =>
      have hw2 : ∃ e ∈ rest, e.isWrite = true := by
        obtain ⟨e, hmem, hisw⟩ := hw
        rcases List.mem_cons.mp hmem with rfl | hmem
        · cases hisw
        · exact ⟨e, hmem, hisw⟩
      simp [writesAfterUnlock, Event.isWrite,
        ih tail (fun x hx => hloop x (List.mem_cons_of_mem _ hx)) hw2]
    | mapDelete d =>
      have hw2 : ∃ e ∈ rest, e.isWrite = true := by
        obtain ⟨e, hmem, hisw⟩ := hw
        rcases List.mem_cons.mp hmem with rfl | hmem
        · cases hisw
        · exact ⟨e, hmem, hisw⟩
      simp [writesAfterUnlock, Event.isWrite,
        ih tail (fun x hx => hloop x (List.mem_cons_of_mem _ hx)) hw2]

/-- A `broadcast` call, started with the mutex free, publishes its message. -/
theorem broadcast_publishes (env : Env) (msg : Msg) (s : State)
    (hl : s.locked = false) (hwf : s.WF) : Publishes (broadcast env msg) s msg := by
  obtain ⟨inner, hrun, hin, hout, hloop, _⟩ := broadcast_run env msg s hl hwf
  refine ⟨_, Event.lock :: (inner ++ [Event.unlock]), hrun, rfl, count_lock_frame inner hloop,
    ?_, ?_⟩
  · intro c hc
    obtain ⟨t, ht⟩ := hin c hc
    rw [attempts_frame, ht]; rfl
  · intro c hc
    rw [attempts_frame, hout c hc]

theorem assertPod_non_pod (obj : Obj) (h : obj.isPod = false) (s : State) :
    ∃ v, assertPod obj s = Res.panic v s := by
  cases obj with
  | pod p => cases h
  | nilPod => exact ⟨_, rfl⟩
  | other n => exact ⟨_, rfl⟩

/-! ## `broadcast`: who is written to -/

/-- C1: for every registry, message and outcome of the individual writes, one call of
`broadcast(msg)` returns and makes exactly one write attempt, carrying `msg`, to each
connection that is in the registry when the call starts, and no write attempt to any other
connection.  The number of write attempts is the size of the registry whatever writes
fail, so a failing write does not stop the remaining attempts and an empty registry means
no write at all. -/
theorem broadcast_writes_each_member_once (env : Env) (msg : Msg) (s : State)
    (hl : s.locked = false) (hwf : s.WF) :
    ∃ s1 evs, broadcast env msg s = Res.ok () s1 ∧ s1.trace = s.trace ++ evs
      ∧ (∀ c, c ∈ s.clients → (attempts c evs).map Prod.fst = [msg])
      ∧ (∀ c, c ∉ s.clients → attempts c evs = [])
      ∧ (evs.filter Event.isWrite).length = s.clients.length
      ∧ (s.clients = [] → evs.filter Event.isWrite = []) := by
  obtain ⟨inner, hrun, hin, hout, _, hcount⟩ := broadcast_run env msg s hl hwf
  refine ⟨_, Event.lock :: (inner ++ [Event.unlock]), hrun, rfl, ?_, ?_, ?_, ?_⟩
  · intro c hc
    obtain ⟨t, ht⟩ := hin c hc
    rw [attempts_frame, ht]; rfl
  · intro c hc
    rw [attempts_frame, hout c hc]
  · rw [isWrite_frame, hcount]
  · intro hempty
    rw [isWrite_frame]
    apply List.eq_nil_of_length_eq_zero
    rw [hcount, hempty]; rfl

/-- C1, at a concrete input: registry `{1, 2, 3}` where the write to `1` fails. -/
theorem broadcast_writes_each_member_once_witness :
    (State.mk [1, 2, 3] false []).locked = false ∧ (State.mk [1, 2, 3] false []).WF
    ∧ ∃ s1 evs, broadcast sampleEnv "m" (State.mk [1, 2, 3] false []) = Res.ok () s1
      ∧ s1.trace = (State.mk [1, 2, 3] false []).trace ++ evs
      ∧ (∀ c, c ∈ (State.mk [1, 2, 3] false []).clients →
          (attempts c evs).map Prod.fst = ["m"])
      ∧ (∀ c, c ∉ (State.mk [1, 2, 3] false []).clients → attempts c evs = [])
      ∧ (evs.filter Event.isWrite).length = (State.mk [1, 2, 3] false []).clients.length
      ∧ ((State.mk [1, 2, 3] false []).clients = [] → evs.filter Event.isWrite = []) :=
  ⟨rfl, by decide,
    broadcast_writes_each_member_once sampleEnv "m" (State.mk [1, 2, 3] false []) rfl
      (by decide)⟩

/-! ## `broadcast`: who stays registered -/

/-- C2: for every registry `R` and message, after `broadcast(msg)` returns the registry
is exactly the members of `R` whose write succeeded: a connection is in it if and only if
it was in `R` and its one write attempt returned no error, every member whose write
failed is gone, and when the outcome of a write depends on the connection only, the
registry is `R` filtered by success (so no connection is added). -/
theorem broadcast_keeps_successful_members (env : Env) (msg : Msg) (s : State)
    (hl : s.locked = false) (hwf : s.WF) :
    ∃ s1 evs, broadcast env msg s = Res.ok () s1 ∧ s1.trace = s.trace ++ evs
      ∧ s1.clients.Nodup
      ∧ (∀ c, c ∈ s1.clients ↔ c ∈ s.clients ∧ attempts c evs = [(msg, false)])
      ∧ (∀ c, c ∈ s.clients → attempts c evs = [(msg, true)] → c ∉ s1.clients)
      ∧ (∀ c, c ∈ s.clients →
          attempts c evs = [(msg, false)] ∨ attempts c evs = [(msg, true)])
      ∧ (∀ w : Conn → Bool, (∀ t c, env.writeErr t c = w c) →
          s1.clients = s.clients.filter (fun c => !w c)) := by
  obtain ⟨inner, hrun, hin, hout, _, _⟩ := broadcast_run env msg s hl hwf
  refine ⟨_, Event.lock :: (inner ++ [Event.unlock]), hrun, rfl, hwf.filter _, ?_, ?_, ?_, ?_⟩
  · intro c
    rw [attempts_frame]
    constructor
    · intro hmem
      obtain ⟨hc, hev⟩ := List.mem_filter.mp hmem
      obtain ⟨t, ht⟩ := hin c hc
      refine ⟨hc, ?_⟩
      cases herr : env.writeErr t c with
      | false => rw [ht, herr]
      | true => simp [evicted, ht, herr] at hev
    · rintro ⟨hc, hat⟩
      exact List.mem_filter.mpr ⟨hc, by simp [evicted, hat]⟩
  · intro c _ hat hmem
    rw [attempts_frame] at hat
    have := (List.mem_filter.mp hmem).2
    simp [evicted, hat] at this
  · intro c hc
    rw [attempts_frame]
    obtain ⟨t, ht⟩ := hin c hc
    cases herr : env.writeErr t c with
    | false => exact Or.inl (by rw [ht, herr])
    | true => exact Or.inr (by rw [ht, herr])
  · intro w hw
    apply List.filter_congr
    intro c hc
    obtain ⟨t, ht⟩ := hin c hc
    simp [evicted, ht, hw]

/-- C2, at a concrete input: registry `{1, 2}` where the write to `1` fails. -/
theorem broadcast_keeps_successful_members_witness :
    (State.mk [1, 2] false []).locked = false ∧ (State.mk [1, 2] false []).WF
    ∧ ∃ s1 evs, broadcast sampleEnv "m" (State.mk [1, 2] false []) = Res.ok () s1
      ∧ s1.trace = (State.mk [1, 2] false []).trace ++ evs
      ∧ s1.clients.Nodup
      ∧ (∀ c, c ∈ s1.clients ↔
          c ∈ (State.mk [1, 2] false []).clients ∧ attempts c evs = [("m", false)])
      ∧ (∀ c, c ∈ (State.mk [1, 2] false []).clients → attempts c evs = [("m", true)] →
          c ∉ s1.clients)
      ∧ (∀ c, c ∈ (State.mk [1, 2] false []).clients →
          attempts c evs = [("m", false)] ∨ attempts c evs = [("m", true)])
      ∧ (∀ w : Conn → Bool, (∀ t c, sampleEnv.writeErr t c = w c) →
          s1.clients = (State.mk [1, 2] false []).clients.filter (fun c => !w c)) :=
  ⟨rfl, by decide,
    broadcast_keeps_successful_members sampleEnv "m" (State.mk [1, 2] false []) rfl
      (by decide)⟩

/-! ## `broadcast`: the mutex -/

/-- C3, as stated, fails: with registry `{7}` the actions of `broadcast("m")` are lock,
write to `7`, unlock; the write is made before the mutex is released, not after. -/
theorem broadcast_write_precedes_unlock :
    broadcast sampleEnv "m" (State.mk [7] false [])
        = Res.ok () (State.mk [7] false [Event.lock, Event.write 7 "m" false, Event.unlock])
    ∧ writesAfterUnlock [Event.lock, Event.write 7 "m" false, Event.unlock] = false
    ∧ (Event.write 7 "m" false, true)
        ∈ heldWhen false [Event.lock, Event.write 7 "m" false, Event.unlock] := by
  decide

/-- C3, amended: `broadcast` holds the mutex for the whole call.  Its actions are one
lock, then the loop (writes, closes and deletions only, with a write to every member),
then one unlock as the last action; the mutex is held at every write, and for a non-empty
registry it is never the case that all writes come after the release. -/
theorem broadcast_writes_while_locked (env : Env) (msg : Msg) (s : State)
    (hl : s.locked = false) (hwf : s.WF) :
    ∃ s1 inner, broadcast env msg s = Res.ok () s1 ∧ s1.locked = false
      ∧ s1.trace = s.trace ++ Event.lock :: (inner ++ [Event.unlock])
      ∧ (∀ e ∈ inner, e.inLoop = true)
      ∧ (∀ c, c ∈ s.clients → ∃ err, Event.write c msg err ∈ inner)
      ∧ (∀ p ∈ heldWhen false (Event.lock :: (inner ++ [Event.unlock])),
          p.1.isWrite = true → p.2 = true)
      ∧ (s.clients ≠ [] →
          writesAfterUnlock (Event.lock :: (inner ++ [Event.unlock])) = false) := by
  obtain ⟨inner, hrun, hin, _, hloop, _⟩ := broadcast_run env msg s hl hwf
  have hwrite : ∀ c, c ∈ s.clients → ∃ err, Event.write c msg err ∈ inner := by
    intro c hc
    obtain ⟨t, ht⟩ := hin c hc
    exact ⟨env.writeErr t c, mem_of_attempts c msg _ inner (by rw [ht]; exact List.mem_singleton.mpr rfl)⟩
  refine ⟨_, inner, hrun, rfl, rfl, hloop, hwrite, heldWhen_broadcast inner hloop, ?_⟩
  intro hne
  obtain ⟨c, hc⟩ := List.exists_mem_of_ne_nil _ hne
  obtain ⟨err, herr⟩ := hwrite c hc
  have := writesAfterUnlock_inLoop inner [Event.unlock] hloop ⟨_, herr, rfl⟩
  simpa [writesAfterUnlock, Event.isWrite] using this

/-- C3, amended, at a concrete input: registry `{1, 2}` where the write to `1` fails. -/
theorem broadcast_writes_while_locked_witness :
    (State.mk [1, 2] false []).locked = false ∧ (State.mk [1, 2] false []).WF
    ∧ ∃ s1 inner, broadcast sampleEnv "m" (State.mk [1, 2] false []) = Res.ok () s1
      ∧ s1.locked = false
      ∧ s1.trace = (State.mk [1, 2] false []).trace ++ Event.lock :: (inner ++ [Event.unlock])
      ∧ (∀ e ∈ inner, e.inLoop = true)
      ∧ (∀ c, c ∈ (State.mk [1, 2] false []).clients → ∃ err, Event.write c "m" err ∈ inner)
      ∧ (∀ p ∈ heldWhen false (Event.lock :: (inner ++ [Event.unlock])),
          p.1.isWrite = true → p.2 = true)
      ∧ ((State.mk [1, 2] false []).clients ≠ [] →
          writesAfterUnlock (Event.lock :: (inner ++ [Event.unlock])) = false) :=
  ⟨rfl, by decide,
    broadcast_writes_while_locked sampleEnv "m" (State.mk [1, 2] false []) rfl (by decide)⟩

/-! ## The informer callbacks -/

/-- C4, as stated, fails: the delete callback on a `cache.DeletedFinalStateUnknown` value
does not return normally, it panics at the type assertion. -/
theorem DeleteFunc_non_pod_panics :
    DeleteFunc sampleEnv (Obj.other "cache.DeletedFinalStateUnknown") (State.mk [5] false [])
        = Res.panic PanicValue.typeAssertion (State.mk [5] false [])
    ∧ (∀ s1, DeleteFunc sampleEnv (Obj.other "cache.DeletedFinalStateUnknown")
        (State.mk [5] false []) ≠ Res.ok () s1) := by
  refine ⟨rfl, ?_⟩
  intro s1 h
  have h2 : DeleteFunc sampleEnv (Obj.other "cache.DeletedFinalStateUnknown")
      (State.mk [5] false []) = Res.panic PanicValue.typeAssertion (State.mk [5] false []) := rfl
  rw [h2] at h
  cases h

/-- C4, amended: for each of the three callbacks and every upstream object that is not a
pod, the callback does not return normally: it panics before anything is serialised or
broadcast, and the state it leaves is the state it found (no message published, mutex not
taken, registry untouched).  The callback does not recover the panic, so nothing that is
sequenced after it in the same goroutine is run: a later callback, also one with a
well-formed pod, is not processed and publishes nothing. -/
theorem callbacks_panic_on_non_pod (env : Env) (obj oldObj : Obj) (s : State)
    (hobj : obj.isPod = false) :
    (∃ v, AddFunc env obj s = Res.panic v s)
    ∧ (∃ v, UpdateFunc env oldObj obj s = Res.panic v s)
    ∧ (∃ v, DeleteFunc env obj s = Res.panic v s)
    ∧ (∀ later : Unit → Go Unit,
        (∃ v, Go.bind (AddFunc env obj) later s = Res.panic v s)
        ∧ (∃ v, Go.bind (UpdateFunc env oldObj obj) later s = Res.panic v s)
        ∧ (∃ v, Go.bind (DeleteFunc env obj) later s = Res.panic v s)) := by
  obtain ⟨v, hv⟩ := assertPod_non_pod obj hobj s
  have hadd : AddFunc env obj s = Res.panic v s := by simp [AddFunc, Go.bind, hv]
  have hupd : UpdateFunc env oldObj obj s = Res.panic v s := by
    simp [UpdateFunc, Go.bind, hv]
  have hdel : DeleteFunc env obj s = Res.panic v s := by simp [DeleteFunc, Go.bind, hv]
  refine ⟨⟨v, hadd⟩, ⟨v, hupd⟩, ⟨v, hdel⟩, ?_⟩
  intro later
  refine ⟨⟨v, ?_⟩, ⟨v, ?_⟩, ⟨v, ?_⟩⟩
  · simp [Go.bind, hadd]
  · simp [Go.bind, hupd]
  · simp [Go.bind, hdel]

/-- C4, amended, at a concrete input: a `cache.DeletedFinalStateUnknown` value handed to
each callback while the registry is `{5}`, followed by any later computation. -/
theorem callbacks_panic_on_non_pod_witness :
    (Obj.other "cache.DeletedFinalStateUnknown").isPod = false
    ∧ (∃ v, AddFunc sampleEnv (Obj.other "cache.DeletedFinalStateUnknown")
        (State.mk [5] false []) = Res.panic v (State.mk [5] false []))
    ∧ (∃ v, UpdateFunc sampleEnv Obj.nilPod (Obj.other "cache.DeletedFinalStateUnknown")
        (State.mk [5] false []) = Res.panic v (State.mk [5] false []))
    ∧ (∃ v, DeleteFunc sampleEnv (Obj.other "cache.DeletedFinalStateUnknown")
        (State.mk [5] false []) = Res.panic v (State.mk [5] false []))
    ∧ (∀ later : Unit → Go Unit,
        (∃ v, Go.bind (AddFunc sampleEnv (Obj.other "cache.DeletedFinalStateUnknown")) later
          (State.mk [5] false []) = Res.panic v (State.mk [5] false []))
        ∧ (∃ v, Go.bind
            (UpdateFunc sampleEnv Obj.nilPod (Obj.other "cache.DeletedFinalStateUnknown")) later
            (State.mk [5] false []) = Res.panic v (State.mk [5] false []))
        ∧ (∃ v, Go.bind (DeleteFunc sampleEnv (Obj.other "cache.DeletedFinalStateUnknown")) later
          (State.mk [5] false []) = Res.panic v (State.mk [5] false []))) :=
  ⟨rfl,
    callbacks_panic_on_non_pod sampleEnv (Obj.other "cache.DeletedFinalStateUnknown")
      Obj.nilPod (State.mk [5] false []) rfl⟩

/-- C5: for every pod with name `n` and namespace `ns`, each callback does exactly what
one call of `broadcast` does, on the serialisation of the object with the three string
fields `event`, `pod` and `namespace`, where `pod` is `n`, `namespace` is `ns` and `event`
is `ADDED` for the add callback, `UPDATED` for the update callback (whatever the old
object is) and `DELETED` for the delete callback; started with the mutex free, that one
call writes the serialisation once to every registered connection. -/
theorem callbacks_publish_pod_event (env : Env) (p : Pod) (oldObj : Obj) (s : State)
    (hl : s.locked = false) (hwf : s.WF) :
    AddFunc env (Obj.pod p) s
        = broadcast env (env.marshal
            [("event", "ADDED"), ("pod", p.Name), ("namespace", p.Namespace)]) s
    ∧ UpdateFunc env oldObj (Obj.pod p) s
        = broadcast env (env.marshal
            [("event", "UPDATED"), ("pod", p.Name), ("namespace", p.Namespace)]) s
    ∧ DeleteFunc env (Obj.pod p) s
        = broadcast env (env.marshal
            [("event", "DELETED"), ("pod", p.Name), ("namespace", p.Namespace)]) s
    ∧ Publishes (AddFunc env (Obj.pod p)) s
        (env.marshal [("event", "ADDED"), ("pod", p.Name), ("namespace", p.Namespace)])
    ∧ Publishes (UpdateFunc env oldObj (Obj.pod p)) s
        (env.marshal [("event", "UPDATED"), ("pod", p.Name), ("namespace", p.Namespace)])
    ∧ Publishes (DeleteFunc env (Obj.pod p)) s
        (env.marshal [("event", "DELETED"), ("pod", p.Name), ("namespace", p.Namespace)]) :=
  ⟨rfl, rfl, rfl, broadcast_publishes env _ s hl hwf, broadcast_publishes env _ s hl hwf,
    broadcast_publishes env _ s hl hwf⟩

/-- C5, at a concrete input: the delete callback for pod `p1` in namespace `ns1` while the
registry is `{5}`. -/
theorem callbacks_publish_pod_event_witness :
    (State.mk [5] false []).locked = false ∧ (State.mk [5] false []).WF
    ∧ Publishes (DeleteFunc sampleEnv (Obj.pod { Name := "p1", Namespace := "ns1" }))
        (State.mk [5] false [])
        (sampleEnv.marshal [("event", "DELETED"), ("pod", "p1"), ("namespace", "ns1")])
    ∧ sampleEnv.marshal [("event", "DELETED"), ("pod", "p1"), ("namespace", "ns1")]
        = "\x7b\"event\":\"DELETED\",\"pod\":\"p1\",\"namespace\":\"ns1\"\x7d" :=
  ⟨rfl, by decide,
    (callbacks_publish_pod_event sampleEnv { Name := "p1", Namespace := "ns1" } Obj.nilPod
      (State.mk [5] false []) rfl (by decide)).2.2.2.2.2,
    by decide⟩

/-! ## The registry under registrations and deregistrations -/

/-- C6: starting from the empty registry, every finite sequence of registrations and
deregistrations by connection handlers runs to its end, and then the registry has no
repeated entry and holds exactly the connections whose most recent operation in the
sequence is a registration.  Registering a connection that is present leaves the registry
as it is, and so does deregistering one that is absent, which returns normally. -/
theorem registry_holds_last_registered (env : Env) (ops : List RegOp) :
    ∃ s1, runActs env (ops.map RegOp.toAct) State.init = Res.ok () s1
      ∧ s1.clients.Nodup
      ∧ (∀ c, c ∈ s1.clients ↔ lastOpOn c ops = some (RegOp.register c))
      ∧ (∀ c, c ∈ s1.clients →
          ∃ s2, registerConn c s1 = Res.ok () s2 ∧ s2.clients = s1.clients)
      ∧ (∀ c, c ∉ s1.clients →
          ∃ s2, deferredCleanup c s1 = Res.ok () s2 ∧ s2.clients = s1.clients) := by
  obtain ⟨s1, hrun, hl1, hwf1, hmem⟩ := runActs_regOps env ops State.init rfl List.nodup_nil
  refine ⟨s1, hrun, hwf1, ?_, ?_, ?_⟩
  · intro c
    rw [hmem c]
    constructor
    · rintro (h | ⟨_, h⟩)
      · exact h
      · cases h
    · exact Or.inl
  · intro c hc
    exact ⟨_, registerConn_run c s1 hl1, keysInsert_present _ _ hc⟩
  · intro c hc
    exact ⟨_, deferredCleanup_run c s1 hl1, keysDelete_absent _ _ hc⟩

/-! ## `handleWebSocket` -/

/-- C7: for a connection whose upgrade succeeded.  The type and payload of the messages
read change nothing.  While every read has returned a message the handler waits in its
read loop with the connection registered (unless another goroutine removed it: a failed
broadcast write or a foreign deregistration).  As soon as a read fails the handler
returns, whatever the other goroutines did in between (a failed broadcast may already
have evicted the connection): the connection is then absent from the registry, the last
actions are the deletion under the mutex and the close of the connection, and whatever
runs afterwards without registering it again, broadcasts included, makes no write attempt
to it. -/
theorem handleWebSocket_cleans_up (env : Env) (conn : Conn) (reads : List ReadStep)
    (s : State) (hl : s.locked = false) (hwf : s.WF) :
    handleWebSocket env (Except.ok conn) (reads.map ReadStep.forget) s
        = handleWebSocket env (Except.ok conn) reads s
    ∧ ((∀ st ∈ reads, st.result ≠ ReadResult.err) →
        ∃ s1, handleWebSocket env (Except.ok conn) reads s = Res.blocked s1
          ∧ ((∀ t, env.writeErr t conn = false) →
              (∀ st ∈ reads, Act.leave conn ∉ st.during) → conn ∈ s1.clients))
    ∧ ((∃ st ∈ reads, st.result = ReadResult.err) →
        ∃ s1 before, handleWebSocket env (Except.ok conn) reads s = Res.ok () s1
          ∧ conn ∉ s1.clients
          ∧ s1.trace = before
              ++ [Event.lock, Event.mapDelete conn, Event.unlock, Event.close conn]
          ∧ ∀ acts, Act.join conn ∉ acts →
              ∃ s2 evs, runActs env acts s1 = Res.ok () s2 ∧ s2.trace = s1.trace ++ evs
                ∧ attempts conn evs = [] ∧ conn ∉ s2.clients) := by
  refine ⟨?_, ?_, ?_⟩
  · simp only [handleWebSocket_ok, Go.bind, withDefer]
    cases registerConn conn s with
    | ok a s1 => simp only [readLoop_forget]
    | panic v s1 => rfl
    | blocked s1 => rfl
  · intro hmsg
    obtain ⟨s1, hrun, _, _, hpres⟩ := handleWebSocket_waiting env conn reads s hl hwf hmsg
    exact ⟨s1, hrun, hpres⟩
  · intro herr
    obtain ⟨s1, before, hrun, hl1, hwf1, habs, htr⟩ :=
      handleWebSocket_returns env conn reads s hl hwf herr
    refine ⟨s1, before, hrun, habs, htr, ?_⟩
    intro acts hj
    obtain ⟨s2, evs, hrun2, _, _, htr2, habs2, _⟩ := runActs_run env acts s1 hl1 hwf1
    obtain ⟨h1, h2⟩ := habs2 conn habs hj
    exact ⟨s2, evs, hrun2, htr2, h2, h1⟩

/-- C7, at a concrete input: connection `1` joins the registry `{2}`, reads one message, is
evicted by a broadcast whose write to it fails, and then its read fails. -/
theorem handleWebSocket_cleans_up_witness :
    (State.mk [2] false []).locked = false ∧ (State.mk [2] false []).WF
    ∧ (∃ st ∈ sampleReads, st.result = ReadResult.err)
    ∧ ∃ s1 before, handleWebSocket sampleEnv (Except.ok 1) sampleReads (State.mk [2] false [])
          = Res.ok () s1
        ∧ 1 ∉ s1.clients
        ∧ s1.trace = before ++ [Event.lock, Event.mapDelete 1, Event.unlock, Event.close 1]
        ∧ ∀ acts, Act.join 1 ∉ acts →
            ∃ s2 evs, runActs sampleEnv acts s1 = Res.ok () s2 ∧ s2.trace = s1.trace ++ evs
              ∧ attempts 1 evs = [] ∧ 1 ∉ s2.clients :=
  ⟨rfl, by decide, ⟨_, List.mem_cons_of_mem _ (List.mem_cons_self _ _), rfl⟩,
    (handleWebSocket_cleans_up sampleEnv 1 sampleReads (State.mk [2] false []) rfl
      (by decide)).2.2 ⟨_, List.mem_cons_of_mem _ (List.mem_cons_self _ _), rfl⟩⟩

/-- C10: when the upgrade fails, `handleWebSocket` returns having done nothing but log the
error: the registry and the mutex are as before, and no lock, registration, deregistration
or close is among its actions. -/
theorem handleWebSocket_upgrade_failure (env : Env) (e : String) (reads : List ReadStep)
    (s : State) :
    ∃ s1 evs, handleWebSocket env (Except.error e) reads s = Res.ok () s1
      ∧ s1.clients = s.clients ∧ s1.locked = s.locked ∧ s1.trace = s.trace ++ evs
      ∧ evs = [Event.log ("WebSocket Upgrade error: " ++ e)]
      ∧ Event.lock ∉ evs
      ∧ (∀ c, Event.mapInsert c ∉ evs ∧ Event.mapDelete c ∉ evs ∧ Event.close c ∉ evs) := by
  refine ⟨{ clients := s.clients, locked := s.locked,
            trace := s.trace ++ [Event.log ("WebSocket Upgrade error: " ++ e)] },
    [Event.log ("WebSocket Upgrade error: " ++ e)], rfl, rfl, rfl, rfl, rfl, ?_, ?_⟩
  · simp
  · intro c
    simp

/-! ## Sequences of broadcasts -/

/-- C8: a subscriber `A` whose writes always fail is evicted after exactly one failed
attempt.  For every registry containing `A`, a first broadcast followed by any further
broadcasts (and registry operations of other handlers) none of which registers `A` again
runs to its end; the write attempts to `A` over the whole sequence are exactly one, the
failed one of the first broadcast, and `A` is absent from the registry after the first
broadcast and after every later action. -/
theorem failing_subscriber_written_once (env : Env) (A : Conn) (m : Msg) (rest : List Act)
    (s : State) (hl : s.locked = false) (hwf : s.WF) (hA : A ∈ s.clients)
    (hfail : ∀ t, env.writeErr t A = true) (hno : Act.join A ∉ rest) :
    ∃ s0 evs0 s1 evs1, broadcast env m s = Res.ok () s0 ∧ s0.trace = s.trace ++ evs0
      ∧ attempts A evs0 = [(m, true)]
      ∧ runActs env rest s0 = Res.ok () s1 ∧ s1.trace = s0.trace ++ evs1
      ∧ attempts A evs1 = []
      ∧ runActs env (Act.bcast m :: rest) s = Res.ok () s1
      ∧ s1.trace = s.trace ++ (evs0 ++ evs1)
      ∧ attempts A (evs0 ++ evs1) = [(m, true)]
      ∧ (∀ n, ∃ sn, runActs env (Act.bcast m :: rest.take n) s = Res.ok () sn
          ∧ A ∉ sn.clients) := by
  obtain ⟨inner, hrun, hin, _, _, _⟩ := broadcast_run env m s hl hwf
  obtain ⟨t, ht⟩ := hin A hA
  rw [hfail t] at ht
  have hwf0 : (State.mk (s.clients.filter (fun c => !evicted inner c)) false
      (s.trace ++ Event.lock :: (inner ++ [Event.unlock]))).WF := hwf.filter _
  have habs0 : A ∉ (State.mk (s.clients.filter (fun c => !evicted inner c)) false
      (s.trace ++ Event.lock :: (inner ++ [Event.unlock]))).clients := by
    intro hmem
    have := (List.mem_filter.mp hmem).2
    simp [evicted, ht] at this
  obtain ⟨s1, evs1, hrun1, _, _, htr1, habs1, _⟩ := runActs_run env rest _ rfl hwf0
  obtain ⟨_, hat1⟩ := habs1 A habs0 hno
  refine ⟨_, Event.lock :: (inner ++ [Event.unlock]), s1, evs1, hrun, rfl, ?_, hrun1, htr1,
    hat1, ?_, ?_, ?_, ?_⟩
  · rw [attempts_frame, ht]
  · simp [runActs_cons, Act.run, Go.bind, hrun, hrun1]
  · rw [htr1, List.append_assoc]
  · rw [attempts_append, attempts_frame, ht, hat1]; rfl
  · intro n
    obtain ⟨sn, evsn, hrunn, _, _, _, habsn, _⟩ := runActs_run env (rest.take n) _ rfl hwf0
    refine ⟨sn, ?_, (habsn A habs0 (fun h => hno (List.mem_of_mem_take h))).1⟩
    simp [runActs_cons, Act.run, Go.bind, hrun, hrunn]

/-- C8, at a concrete input: registry `{1, 2}`, every write to `1` fails, three
broadcasts with the arrival of connection `3` in between. -/
theorem failing_subscriber_written_once_witness :
    (State.mk [1, 2] false []).locked = false ∧ (State.mk [1, 2] false []).WF
    ∧ 1 ∈ (State.mk [1, 2] false []).clients
    ∧ (∀ t, sampleEnv.writeErr t 1 = true)
    ∧ Act.join 1 ∉ [Act.bcast "b", Act.join 3, Act.bcast "c"]
    ∧ ∃ s0 evs0 s1 evs1, broadcast sampleEnv "a" (State.mk [1, 2] false []) = Res.ok () s0
      ∧ s0.trace = (State.mk [1, 2] false []).trace ++ evs0
      ∧ attempts 1 evs0 = [("a", true)]
      ∧ runActs sampleEnv [Act.bcast "b", Act.join 3, Act.bcast "c"] s0 = Res.ok () s1
      ∧ s1.trace = s0.trace ++ evs1
      ∧ attempts 1 evs1 = []
      ∧ runActs sampleEnv (Act.bcast "a" :: [Act.bcast "b", Act.join 3, Act.bcast "c"])
          (State.mk [1, 2] false []) = Res.ok () s1
      ∧ s1.trace = (State.mk [1, 2] false []).trace ++ (evs0 ++ evs1)
      ∧ attempts 1 (evs0 ++ evs1) = [("a", true)]
      ∧ (∀ n, ∃ sn, runActs sampleEnv
            (Act.bcast "a" :: [Act.bcast "b", Act.join 3, Act.bcast "c"].take n)
            (State.mk [1, 2] false []) = Res.ok () sn
          ∧ 1 ∉ sn.clients) :=
  ⟨rfl, by decide, by decide, fun _ => rfl, by decide,
    failing_subscriber_written_once sampleEnv 1 "a" [Act.bcast "b", Act.join 3, Act.bcast "c"]
      (State.mk [1, 2] false []) rfl (by decide) (by decide) (fun _ => rfl) (by decide)⟩

/-- C9: per-subscriber delivery order is publish order.  For every subscriber that is
registered at the start and whose writes all succeed, and every sequence of broadcasts
(with registry operations of handlers in between, none of which deregisters it), the
sequence runs to its end and the messages written to the subscriber are exactly the
messages of the broadcast calls, in call order, each once; for successive broadcasts of
`m1..mk` that is `m1..mk`. -/
theorem subscriber_receives_in_publish_order (env : Env) (c : Conn) (acts : List Act)
    (s : State) (hl : s.locked = false) (hwf : s.WF) (hc : c ∈ s.clients)
    (hok : ∀ t, env.writeErr t c = false) (hstay : Act.leave c ∉ acts) :
    ∃ s1 evs, runActs env acts s = Res.ok () s1 ∧ s1.trace = s.trace ++ evs
      ∧ (attempts c evs).map Prod.fst = payloads acts
      ∧ (∀ a ∈ attempts c evs, a.2 = false)
      ∧ c ∈ s1.clients
      ∧ (∀ msgs : List Msg, acts = msgs.map Act.bcast →
          (attempts c evs).map Prod.fst = msgs) := by
  obtain ⟨s1, evs, hrun, _, _, htr, _, hpres⟩ := runActs_run env acts s hl hwf
  obtain ⟨hc1, hat⟩ := hpres c hc hok hstay
  have hfst : (attempts c evs).map Prod.fst = payloads acts := by
    rw [hat, List.map_map]
    simp [Function.comp_def]
  refine ⟨s1, evs, hrun, htr, hfst, ?_, hc1, ?_⟩
  · intro a ha
    rw [hat] at ha
    obtain ⟨m, _, rfl⟩ := List.mem_map.mp ha
    rfl
  · intro msgs hmsgs
    rw [hfst, hmsgs, payloads_map_bcast]

/-- C9, at a concrete input: registry `{1, 2}`, the writes to `2` succeed, three
broadcasts. -/
theorem subscriber_receives_in_publish_order_witness :
    (State.mk [1, 2] false []).locked = false ∧ (State.mk [1, 2] false []).WF
    ∧ 2 ∈ (State.mk [1, 2] false []).clients
    ∧ (∀ t, sampleEnv.writeErr t 2 = false)
    ∧ Act.leave 2 ∉ [Act.bcast "a", Act.bcast "b", Act.bcast "c"]
    ∧ ∃ s1 evs, runActs sampleEnv [Act.bcast "a", Act.bcast "b", Act.bcast "c"]
          (State.mk [1, 2] false []) = Res.ok () s1
      ∧ s1.trace = (State.mk [1, 2] false []).trace ++ evs
      ∧ (attempts 2 evs).map Prod.fst = payloads [Act.bcast "a", Act.bcast "b", Act.bcast "c"]
      ∧ (∀ a ∈ attempts 2 evs, a.2 = false)
      ∧ 2 ∈ s1.clients
      ∧ (∀ msgs : List Msg, [Act.bcast "a", Act.bcast "b", Act.bcast "c"] = msgs.map Act.bcast →
          (attempts 2 evs).map Prod.fst = msgs) :=
  ⟨rfl, by decide, by decide, fun _ => rfl, by decide,
    subscriber_receives_in_publish_order sampleEnv 2 [Act.bcast "a", Act.bcast "b", Act.bcast "c"]
      (State.mk [1, 2] false []) rfl (by decide) (by decide) (fun _ => rfl) (by decide)⟩

end KubeWatcher
